import Mathlib

/-!
Shallow embedding of `llama_index/core/instrumentation/__init__.py`:
the dispatcher registry (`root_dispatcher`, `root_manager`, `get_dispatcher`),
the call-scoped event-tag context manager (`event_tags`), and the
class-definition instrumentation hook (`DispatcherSpanMixin.__init_subclass__`).
Collaborators that the fragment imports but whose code is not part of it
(`Dispatcher`/`Manager` internals from `dispatcher.py`, the null handlers)
are modelled from the specification where their behaviour matters; each such
definition carries a doc comment saying so.
-/

/-- Modelled from the spec: default no-op event handler (`NullEventHandler`,
whose module is outside the fragment); it performs no action and never fails,
so only its identity matters here. -/
inductive EventHandler where
  | nullEventHandler
deriving DecidableEq, Repr

/-- Modelled from the spec: default no-op span handler (`NullSpanHandler`). -/
inductive SpanHandler where
  | nullSpanHandler
deriving DecidableEq, Repr

/-- The `Dispatcher` record as used by the fragment: a named node with a root
name, a parent name, handler lists and a propagate flag.  Field defaults for
fields the fragment does not pass explicitly (`dispatcher.py` is outside the
fragment) follow the spec: empty parent, handler lists empty unless given. -/
structure Dispatcher where
  name : String
  rootName : String := "root"
  parentName : String := ""
  eventHandlers : List EventHandler := []
  spanHandlers : List SpanHandler := []
  propagate : Bool := true
deriving DecidableEq, Repr

/-- `root_dispatcher` from the source: name `"root"`, one null event handler,
one null span handler, `propagate=False`. -/
def rootDispatcher : Dispatcher :=
  { name := "root"
    eventHandlers := [EventHandler.nullEventHandler]
    spanHandlers := [SpanHandler.nullSpanHandler]
    propagate := false }

/-- The `Manager` registry: a name-to-dispatcher mapping, embedded as an
insertion-ordered association list with unique keys (a Python dict). -/
structure Manager where
  dispatchers : List (String × Dispatcher)
deriving DecidableEq, Repr

/-- Lookup in the name-to-dispatcher mapping (Python `dict.__getitem__` /
`in` test, embedded over the association list). -/
def lookupName : List (String × Dispatcher) → String → Option Dispatcher
  | [], _ => none
  | p :: rest, n => if p.1 = n then some p.2 else lookupName rest n

/-- `name in manager.dispatchers` from the source. -/
def Manager.containsName (m : Manager) (n : String) : Bool :=
  (lookupName m.dispatchers n).isSome

/-- `manager.dispatchers[name]` from the source. -/
def Manager.lookup (m : Manager) (n : String) : Option Dispatcher :=
  lookupName m.dispatchers n

/-- Modelled from the spec: `Manager.add_dispatcher` (in `dispatcher.py`,
outside the fragment) inserts a fully constructed dispatcher keyed by its
name; a Python dict appends a new key in insertion order.  `get_dispatcher`
only calls it for a name it has just checked to be absent. -/
def Manager.addDispatcher (m : Manager) (d : Dispatcher) : Manager :=
  ⟨m.dispatchers ++ [(d.name, d)]⟩

/-- Modelled from the spec: `Manager(root_dispatcher)` binds the registry to
the root dispatcher, registering it under its own name. -/
def Manager.ofRoot (d : Dispatcher) : Manager :=
  ⟨[(d.name, d)]⟩

/-- `root_manager` from the source. -/
def rootManager : Manager := Manager.ofRoot rootDispatcher

/-- Helper for `name.split(".")` (Python `str.split` on a one-character
separator): accumulate the current segment, cut at each dot. -/
def splitSegsAux : List Char → String → List String
  | [], acc => [acc]
  | c :: cs, acc =>
      if c = '.' then acc :: splitSegsAux cs "" else splitSegsAux cs (acc.push c)

/-- `name.split(".")` from the source. -/
def splitSegs (s : String) : List String :=
  splitSegsAux s.toList ""

/-- `".".join(name.split(".")[:-1])` from the source: the candidate parent
name obtained by stripping the last dot-delimited segment once. -/
def candidateParent (name : String) : String :=
  String.intercalate "." (splitSegs name).dropLast

/-- `get_dispatcher` from the source, with the shared mutable `root_manager`
passed as explicit state: return the registered dispatcher if the name is
present; otherwise build a new dispatcher whose parent is the once-stripped
candidate if registered, else the literal `"root"`, register it, return it. -/
def getDispatcher (m : Manager) (name : String) : Dispatcher × Manager :=
  match m.lookup name with
  | some d => (d, m)
  | none =>
      let parentName :=
        if m.containsName (candidateParent name) then candidateParent name else "root"
      let newDispatcher : Dispatcher :=
        { name := name
          rootName := rootDispatcher.name
          parentName := parentName }
      (newDispatcher, m.addDispatcher newDispatcher)

/-- Run a sequence of `get_dispatcher` calls, threading the registry state. -/
def runAll (m : Manager) (names : List String) : Manager :=
  names.foldl (fun acc n => (getDispatcher acc n).2) m

/-- The spec-side reading of parent resolution in claim C1 (a second
definition following the claim's words, for comparison with
`getDispatcher`): the proper dotted ancestor prefixes of a name, obtained by
repeatedly stripping the last dot-delimited segment, longest first. -/
def dottedAncestorPrefixes (name : String) : List String :=
  let segs := splitSegs name
  (List.range segs.length).reverse.map (fun k => String.intercalate "." (segs.take k))

/-- The spec-side reading of parent resolution in claim C1: the parent is the
longest proper dotted ancestor prefix that names a registered dispatcher,
falling back to the root's name only when no such prefix is registered. -/
def claimedParentName (m : Manager) (name : String) : String :=
  match (dottedAncestorPrefixes name).find? (fun p => m.containsName p) with
  | some p => p
  | none => "root"

/-- `event_tags` from the source, with the `ContextVar` passed as explicit
state: `set(new_tags)` returns a token recording the prior value, the
enclosed operation runs with `new_tags` active (and may itself update the
state), and the `finally` block resets the variable to exactly the token's
value on every exit path, normal or failing. -/
def eventTags (newTags : τ) (op : τ → Except ε (α × τ)) (prior : τ) :
    Except ε α × τ :=
  let token := prior
  match op newTags with
  | Except.ok (a, _) => (Except.ok a, token)
  | Except.error e => (Except.error e, token)

/-- A method-like class attribute as `__init_subclass__` inspects it:
whether it is callable, whether it is abstract
(`hasattr(m, "__isabstractmethod__") and m.__isabstractmethod__`), whether it
carries the `DISPATCHER_SPAN_DECORATED_ATTR` marker, and the stack of span
wraps applied to it (names of the wrapping dispatchers, innermost last). -/
structure MethodDef where
  isCallable : Bool := true
  isAbstract : Bool := false
  marked : Bool := false
  wraps : List String := []
deriving DecidableEq, Repr

/-- Modelled from the spec and the mixin's docstring: the `dispatcher.span`
decorator (in `dispatcher.py`, outside the fragment) is idempotent — a method
already carrying the marker is returned unchanged; otherwise it wraps the
method once, recording the wrapping dispatcher, and sets the marker. -/
def Dispatcher.span (d : Dispatcher) (meth : MethodDef) : MethodDef :=
  if meth.marked then meth
  else { meth with marked := true, wraps := d.name :: meth.wraps }

/-- Modelled from the spec: each span wrap applied to a method produces
exactly one span-enter notification per invocation, so the number of
span-enter notifications one call produces is the number of applied wraps. -/
def spanEnterCount (meth : MethodDef) : Nat :=
  meth.wraps.length

/-- A class as `__init_subclass__` sees it: its declaring module name, its
own `__dict__`, and the `__dict__`s of `inspect.getmro(cls)` with the class
itself skipped, in method-resolution order. -/
structure PyClass where
  module : String
  dict : List (String × MethodDef)
  ancestors : List (List (String × MethodDef))

/-- The `abstract_methods` list collected by `__init_subclass__`: over every
ancestor dict, the callable attributes with `__isabstractmethod__` true. -/
def abstractMethodNames (ancestors : List (List (String × MethodDef))) :
    List String :=
  ancestors.flatMap fun d =>
    (d.filter fun p => p.2.isCallable && p.2.isAbstract).map Prod.fst

/-- The `decorated_methods` list collected by `__init_subclass__`: over every
ancestor dict, the callable attributes that are not abstract (the `elif`)
but carry the marker. -/
def decoratedMethodNames (ancestors : List (List (String × MethodDef))) :
    List String :=
  ancestors.flatMap fun d =>
    (d.filter fun p => p.2.isCallable && !p.2.isAbstract && p.2.marked).map Prod.fst

/-- `DispatcherSpanMixin.__init_subclass__` from the source, with the shared
registry passed as explicit state: collect abstract and decorated method
names over the ancestors, resolve a dispatcher for the class's module, then
rebind every directly defined callable non-abstract method whose name is in
either collection to its span-wrapped form. -/
def initSubclass (m : Manager) (cls : PyClass) :
    Manager × List (String × MethodDef) :=
  let absNames := abstractMethodNames cls.ancestors
  let decNames := decoratedMethodNames cls.ancestors
  let resolved := getDispatcher m cls.module
  let newDict := cls.dict.map fun p =>
    if !p.2.isCallable || p.2.isAbstract then p
    else if absNames.contains p.1 || decNames.contains p.1 then
      (p.1, resolved.1.span p.2)
    else p
  (resolved.2, newDict)

/-- Outcome reported to a span handler on exit: success payload or failure. -/
inductive SpanOutcome (α ε : Type) where
  | success (value : α)
  | failure (err : ε)
deriving DecidableEq, Repr

/-- One notification delivered to a span handler, identified by its index in
the handler list. -/
inductive SpanNote (α ε : Type) where
  | onEnter (handler : Nat)
  | onExit (handler : Nat) (outcome : SpanOutcome α ε)
deriving DecidableEq, Repr

/-- Modelled from the spec: `Dispatcher.span` around one operation (the code
of `dispatcher.py` is outside the fragment) — notify every span handler's
on-enter, run the operation, notify every span handler's on-exit with the
success payload or the failure reason, and return the operation's own result
unchanged. -/
def spanRun (handlers : List Nat) (op : Except ε α) :
    Except ε α × List (SpanNote α ε) :=
  match op with
  | Except.ok a =>
      (Except.ok a,
        handlers.map SpanNote.onEnter ++
          handlers.map fun h => SpanNote.onExit h (SpanOutcome.success a))
  | Except.error e =>
      (Except.error e,
        handlers.map SpanNote.onEnter ++
          handlers.map fun h => SpanNote.onExit h (SpanOutcome.failure e))

/-- The on-exit notifications of a trace, in order, as handler-outcome
pairs. -/
def exitNotes : List (SpanNote α ε) → List (Nat × SpanOutcome α ε)
  | [] => []
  | SpanNote.onEnter _ :: rest => exitNotes rest
  | SpanNote.onExit h o :: rest => (h, o) :: exitNotes rest

/-- Connectivity predicate for C7: every non-root entry of the registry has
a parent name that is a registered key or the literal root name. -/
def connectedEntries (m : Manager) : Prop :=
  ∀ p ∈ m.dispatchers, p.2.name ≠ "root" →
    m.containsName p.2.parentName = true ∨ p.2.parentName = "root"

/-- Concrete class for the C2 witness: one ancestor declares abstract `f`;
the class implements `f` and defines a fresh method `g`. -/
def sampleClass : PyClass :=
  { module := "svc.mod"
    dict := [("f", {}), ("g", {})]
    ancestors := [[("f", { isAbstract := true })]] }

/- Helper lemmas about the registry. -/

theorem lookupName_append_of_none {l : List (String × Dispatcher)} {n : String}
    (h : lookupName l n = none) (d : Dispatcher) :
    lookupName (l ++ [(n, d)]) n = some d := by
  induction l with
  | nil => simp [lookupName]
  | cons p rest ih =>
      by_cases hp : p.1 = n
      · simp [lookupName, hp] at h
      · simp only [lookupName, hp, if_false, List.cons_append] at h ⊢
        simp [lookupName, hp]
        exact ih h

theorem lookupName_append_left {l l₂ : List (String × Dispatcher)} {n : String}
    {d : Dispatcher} (h : lookupName l n = some d) :
    lookupName (l ++ l₂) n = some d := by
  induction l with
  | nil => simp [lookupName] at h
  | cons p rest ih =>
      by_cases hp : p.1 = n
      · simp [lookupName, hp] at h ⊢; exact h
      · simp [lookupName, hp] at h ⊢; exact ih h

theorem containsName_addDispatcher_mono {m : Manager} {n : String}
    (h : m.containsName n = true) (d : Dispatcher) :
    (m.addDispatcher d).containsName n = true := by
  unfold Manager.containsName at h ⊢
  unfold Manager.addDispatcher
  cases hl : lookupName m.dispatchers n with
  | none => rw [hl] at h; simp at h
  | some d₀ => simp [lookupName_append_left hl]

theorem containsName_getDispatcher_self (m : Manager) (n : String) :
    ((getDispatcher m n).2).containsName n = true := by
  unfold getDispatcher
  cases hl : m.lookup n with
  | some d => simpa [Manager.containsName, Manager.lookup] using congrArg Option.isSome hl
  | none =>
      simp only []
      unfold Manager.containsName Manager.addDispatcher
      have := lookupName_append_of_none (l := m.dispatchers) (n := n) hl
      simp [this]

theorem splitSegsAux_ne_nil (cs : List Char) (acc : String) :
    splitSegsAux cs acc ≠ [] := by
  induction cs generalizing acc with
  | nil => simp [splitSegsAux]
  | cons c rest ih =>
      unfold splitSegsAux
      by_cases hc : c = '.'
      · simp [hc]
      · simp [hc]; exact ih _

theorem candidateParent_mem_dottedAncestorPrefixes (name : String) :
    candidateParent name ∈ dottedAncestorPrefixes name := by
  unfold candidateParent dottedAncestorPrefixes
  have hne : splitSegs name ≠ [] := splitSegsAux_ne_nil _ _
  have hlen : 1 ≤ (splitSegs name).length := by
    cases h : splitSegs name with
    | nil => exact absurd h hne
    | cons a l => simp
  rw [List.dropLast_eq_take]
  refine List.mem_map.mpr ⟨(splitSegs name).length - 1, ?_, rfl⟩
  rw [List.mem_reverse, List.mem_range]
  omega

theorem lookup_getDispatcher_self (m : Manager) (n : String) :
    ((getDispatcher m n).2).lookup n = some (getDispatcher m n).1 := by
  unfold getDispatcher
  cases hl : m.lookup n with
  | some d => simpa using hl
  | none =>
      simp only [Manager.lookup, Manager.addDispatcher] at hl ⊢
      exact lookupName_append_of_none hl _

/-- C9: at bootstrap exactly one root dispatcher is created, with name
`"root"`, `propagate` false, empty parent, and the default no-op event and
span handlers, and exactly one registry is bound to that root dispatcher, so
the initial mapping holds the root entry alone. -/
theorem c9_bootstrap_single_root :
    rootDispatcher.name = "root" ∧
    rootDispatcher.propagate = false ∧
    rootDispatcher.parentName = "" ∧
    rootDispatcher.eventHandlers = [EventHandler.nullEventHandler] ∧
    rootDispatcher.spanHandlers = [SpanHandler.nullSpanHandler] ∧
    rootManager = Manager.ofRoot rootDispatcher ∧
    rootManager.dispatchers = [("root", rootDispatcher)] :=
  ⟨rfl, rfl, rfl, rfl, rfl, rfl, rfl⟩

/-- C4: `get_dispatcher` is an idempotent lookup — calling it a second time
with the same name returns exactly the dispatcher registered by the first
call, with the registry unchanged, rather than constructing a new one. -/
theorem c4_getDispatcher_idempotent (m : Manager) (n : String) :
    getDispatcher (getDispatcher m n).2 n =
      ((getDispatcher m n).1, (getDispatcher m n).2) := by
  have h := lookup_getDispatcher_self m n
  generalize hd : (getDispatcher m n).1 = d at h ⊢
  generalize hs : (getDispatcher m n).2 = s at h ⊢
  unfold getDispatcher
  rw [h]

/-- C1 counterexample: starting from the bootstrapped registry, register
`"a"`, then request `"a.b.c"`.  The longest proper dotted prefix naming a
registered dispatcher is `"a"`, but the code resolves the parent to
`"root"`: the claimed repeated-stripping search is not what the code does. -/
theorem c1_counterexample_single_strip :
    claimedParentName (getDispatcher rootManager "a").2 "a.b.c" = "a" ∧
    ((getDispatcher (getDispatcher rootManager "a").2 "a.b.c").1).parentName = "root" ∧
    ((getDispatcher (getDispatcher rootManager "a").2 "a.b.c").1).parentName ≠
      claimedParentName (getDispatcher rootManager "a").2 "a.b.c" :=
  ⟨by decide, by decide, by decide⟩

/-- C1 (amended): for every name not already registered, `get_dispatcher`
strips the last dot-delimited segment exactly once; if that single
immediate-parent prefix names an existing dispatcher it becomes the parent,
otherwise the parent falls back to the root's name — longer ancestor
prefixes are never consulted. -/
theorem c1_parent_single_strip (m : Manager) (name : String)
    (hnew : m.lookup name = none) :
    ((getDispatcher m name).1).parentName =
      (if m.containsName (candidateParent name) then candidateParent name
       else "root") := by
  unfold getDispatcher
  rw [hnew]

/-- Witness for C1 (amended) at the bootstrapped registry and `"svc.sub"`. -/
theorem c1_parent_single_strip_witness :
    rootManager.lookup "svc.sub" = none ∧
    ((getDispatcher rootManager "svc.sub").1).parentName =
      (if rootManager.containsName (candidateParent "svc.sub") then
        candidateParent "svc.sub" else "root") :=
  ⟨by decide, c1_parent_single_strip rootManager "svc.sub" (by decide)⟩

/-- C5: for a name not yet registered none of whose proper dotted ancestor
prefixes names a registered dispatcher, the created dispatcher's parent is
the root dispatcher's name. -/
theorem c5_orphan_parent_is_root (m : Manager) (name : String)
    (hnew : m.lookup name = none)
    (h : ∀ p ∈ dottedAncestorPrefixes name, m.containsName p = false) :
    ((getDispatcher m name).1).parentName = rootDispatcher.name := by
  have hc := h _ (candidateParent_mem_dottedAncestorPrefixes name)
  unfold getDispatcher
  rw [hnew]
  simp [hc, rootDispatcher]

/-- Witness for C5: registering `"svc.sub"` on the bootstrapped registry,
where `"svc"` was never registered, resolves the parent to root's name. -/
theorem c5_orphan_parent_is_root_witness :
    rootManager.lookup "svc.sub" = none ∧
    (∀ p ∈ dottedAncestorPrefixes "svc.sub", rootManager.containsName p = false) ∧
    ((getDispatcher rootManager "svc.sub").1).parentName = rootDispatcher.name :=
  ⟨by decide, by decide,
    c5_orphan_parent_is_root rootManager "svc.sub" (by decide) (by decide)⟩


theorem connectedEntries_getDispatcher {m : Manager} (h : connectedEntries m)
    (n : String) : connectedEntries (getDispatcher m n).2 := by
  unfold getDispatcher
  cases hl : m.lookup n with
  | some d => exact h
  | none =>
      intro p hp hroot
      simp only [Manager.addDispatcher] at hp
      rcases List.mem_append.mp hp with hold | hnew
      · rcases h p hold hroot with hc | hr
        · exact Or.inl (containsName_addDispatcher_mono hc _)
        · exact Or.inr hr
      · have hp2 : p =
            (n, { name := n, rootName := rootDispatcher.name,
                  parentName :=
                    if m.containsName (candidateParent n) then candidateParent n
                    else "root" }) := by
          simpa using hnew
        subst hp2
        by_cases hcand : m.containsName (candidateParent n) = true
        · left
          simp only [hcand, if_true]
          exact containsName_addDispatcher_mono hcand _
        · right
          simp [hcand]

theorem connectedEntries_runAll {m : Manager} (h : connectedEntries m)
    (names : List String) : connectedEntries (runAll m names) := by
  induction names generalizing m with
  | nil => exact h
  | cons n rest ih =>
      simp only [runAll, List.foldl_cons]
      exact ih (connectedEntries_getDispatcher h n)

theorem rootManager_connected : connectedEntries rootManager := by
  intro p hp hroot
  simp only [rootManager, Manager.ofRoot, rootDispatcher, List.mem_singleton] at hp
  subst hp
  simp at hroot

/-- C7: after any sequence of `get_dispatcher` calls starting from the
bootstrapped registry, every non-root dispatcher in the registry has a
parent name that is either a key of the registry's mapping or the root
dispatcher's name, so the tree stays connected to root. -/
theorem c7_registry_stays_connected (names : List String)
    (entry : String × Dispatcher)
    (hmem : entry ∈ (runAll rootManager names).dispatchers)
    (hroot : entry.2.name ≠ "root") :
    (runAll rootManager names).containsName entry.2.parentName = true ∨
      entry.2.parentName = "root" :=
  connectedEntries_runAll rootManager_connected names entry hmem hroot

/-- Witness for C7 after registering `"svc.sub"`. -/
theorem c7_registry_stays_connected_witness :
    ("svc.sub", ({ name := "svc.sub", parentName := "root" } : Dispatcher)) ∈
        (runAll rootManager ["svc.sub"]).dispatchers ∧
    ({ name := "svc.sub", parentName := "root" } : Dispatcher).name ≠ "root" ∧
    ((runAll rootManager ["svc.sub"]).containsName
        ({ name := "svc.sub", parentName := "root" } : Dispatcher).parentName = true ∨
      ({ name := "svc.sub", parentName := "root" } : Dispatcher).parentName = "root") :=
  ⟨by decide, by decide,
    c7_registry_stays_connected ["svc.sub"]
      ("svc.sub", { name := "svc.sub", parentName := "root" })
      (by decide) (by decide)⟩


/-- C2: a method defined directly on a class processed by the hook is
rebound to its span-wrapped form — wrapped by the dispatcher resolved from
the class's declaring-module name, with the marker set on the result — if
and only if it is callable, not abstract on this class, and its name occurs
among the ancestors' abstract or marker-carrying methods; every other
directly defined attribute is left unchanged. -/
theorem c2_hook_wraps_exactly_eligible (m : Manager) (cls : PyClass)
    (attr : String) (meth : MethodDef) (hmem : (attr, meth) ∈ cls.dict) :
    ((meth.isCallable = true ∧ meth.isAbstract = false ∧
        (attr ∈ abstractMethodNames cls.ancestors ∨
          attr ∈ decoratedMethodNames cls.ancestors)) →
      ((attr, ((getDispatcher m cls.module).1).span meth) ∈ (initSubclass m cls).2 ∧
        (((getDispatcher m cls.module).1).span meth).marked = true)) ∧
    (¬ (meth.isCallable = true ∧ meth.isAbstract = false ∧
        (attr ∈ abstractMethodNames cls.ancestors ∨
          attr ∈ decoratedMethodNames cls.ancestors)) →
      (attr, meth) ∈ (initSubclass m cls).2) := by
  constructor
  · rintro ⟨hcall, habs, hin⟩
    constructor
    · unfold initSubclass
      refine List.mem_map.mpr ⟨(attr, meth), hmem, ?_⟩
      rcases hin with h | h
      · simp [hcall, habs, h]
      · simp [hcall, habs, h]
    · unfold Dispatcher.span
      by_cases hmk : meth.marked = true <;> simp [hmk]
  · intro hnot
    unfold initSubclass
    refine List.mem_map.mpr ⟨(attr, meth), hmem, ?_⟩
    by_cases hcall : meth.isCallable = true
    · by_cases habs : meth.isAbstract = true
      · simp [habs]
      · rw [Bool.not_eq_true] at habs
        have hnotin : ¬ (attr ∈ abstractMethodNames cls.ancestors ∨
            attr ∈ decoratedMethodNames cls.ancestors) :=
          fun hin => hnot ⟨hcall, habs, hin⟩
        push_neg at hnotin
        simp [hcall, habs, hnotin.1, hnotin.2]
    · rw [Bool.not_eq_true] at hcall
      simp [hcall]

/-- Witness for C2 on `sampleClass`: the implemented abstract method `f`
is wrapped and marked, per the wrap branch of the theorem. -/
theorem c2_hook_wraps_exactly_eligible_witness :
    ("f", ({} : MethodDef)) ∈ sampleClass.dict ∧
    (((({} : MethodDef).isCallable = true ∧ ({} : MethodDef).isAbstract = false ∧
        ("f" ∈ abstractMethodNames sampleClass.ancestors ∨
          "f" ∈ decoratedMethodNames sampleClass.ancestors)) →
      (("f", ((getDispatcher rootManager sampleClass.module).1).span {}) ∈
          (initSubclass rootManager sampleClass).2 ∧
        (((getDispatcher rootManager sampleClass.module).1).span
            ({} : MethodDef)).marked = true)) ∧
    (¬ (({} : MethodDef).isCallable = true ∧ ({} : MethodDef).isAbstract = false ∧
        ("f" ∈ abstractMethodNames sampleClass.ancestors ∨
          "f" ∈ decoratedMethodNames sampleClass.ancestors)) →
      ("f", ({} : MethodDef)) ∈ (initSubclass rootManager sampleClass).2)) :=
  ⟨by decide,
    c2_hook_wraps_exactly_eligible rootManager sampleClass "f" {} (by decide)⟩

/-- C6: span wrapping is idempotent — wrapping a pristine method marks it, a
second application of the wrap to the now-marked method returns it
unchanged, and a call to the method produces exactly one span-enter
notification, never two. -/
theorem c6_span_wrap_idempotent (d₁ d₂ : Dispatcher) (meth : MethodDef)
    (hmarked : meth.marked = false) (hwraps : meth.wraps = []) :
    (d₁.span meth).marked = true ∧
    d₂.span (d₁.span meth) = d₁.span meth ∧
    spanEnterCount (d₁.span meth) = 1 ∧
    spanEnterCount (d₂.span (d₁.span meth)) = 1 := by
  unfold Dispatcher.span spanEnterCount
  simp [hmarked, hwraps]

/-- Witness for C6 on a pristine method and the root dispatcher. -/
theorem c6_span_wrap_idempotent_witness :
    ({} : MethodDef).marked = false ∧ ({} : MethodDef).wraps = [] ∧
    ((rootDispatcher.span {}).marked = true ∧
      rootDispatcher.span (rootDispatcher.span {}) = rootDispatcher.span {} ∧
      spanEnterCount (rootDispatcher.span {}) = 1 ∧
      spanEnterCount (rootDispatcher.span (rootDispatcher.span {})) = 1) :=
  ⟨by decide, by decide,
    c6_span_wrap_idempotent rootDispatcher rootDispatcher {} (by decide) (by decide)⟩

/-- C3: `event_tags` installs the new mapping for the enclosed operation —
an operation reading the active mapping sees exactly the new tags — and on
every exit path, normal completion or failure, exactly the prior mapping is
restored while the operation's own outcome passes through unchanged. -/
theorem c3_event_tags_scope_restores (t p : τ) (e : ε)
    (op : τ → Except ε (α × τ)) :
    (eventTags t (fun s => (Except.ok (s, s) : Except ε (τ × τ))) p).1 =
      Except.ok t ∧
    (eventTags t op p).2 = p ∧
    (eventTags t op p).1 = (op t).map Prod.fst ∧
    eventTags t (fun _ => (Except.error e : Except ε (α × τ))) p =
      (Except.error e, p) := by
  refine ⟨rfl, ?_, ?_, rfl⟩
  · unfold eventTags
    cases h : op t with
    | error e₂ => rfl
    | ok v => obtain ⟨a, s⟩ := v; rfl
  · unfold eventTags
    cases h : op t with
    | error e₂ => simp [h, Except.map]
    | ok v => obtain ⟨a, s⟩ := v; simp [h, Except.map]

/-- The on-exit trace skips leading on-enter notifications. -/
theorem exitNotes_append_enters (l : List Nat) (r : List (SpanNote α ε)) :
    exitNotes (l.map SpanNote.onEnter ++ r) = exitNotes r := by
  induction l with
  | nil => rfl
  | cons h rest ih => simpa [exitNotes] using ih

/-- The on-exit trace of a block of on-exit notifications, one per handler
with one outcome, is that handler-outcome list. -/
theorem exitNotes_map_onExit (l : List Nat) (o : SpanOutcome α ε) :
    exitNotes (l.map fun h => SpanNote.onExit h o) = l.map fun h => (h, o) := by
  induction l with
  | nil => rfl
  | cons h rest ih => simp [exitNotes, ih]

/-- C8: when the wrapped operation fails, `span` notifies each span
handler's on-exit exactly once, in handler order, with the failure outcome,
and returns the original failure unchanged to the caller. -/
theorem c8_span_failure_passthrough (handlers : List Nat) (op : Except ε α)
    (e : ε) (hop : op = Except.error e) :
    (spanRun handlers op).1 = Except.error e ∧
    exitNotes (spanRun handlers op).2 =
      handlers.map (fun h => (h, SpanOutcome.failure e)) := by
  subst hop
  refine ⟨rfl, ?_⟩
  show exitNotes (handlers.map SpanNote.onEnter ++
      handlers.map fun h => SpanNote.onExit h (SpanOutcome.failure e)) = _
  rw [exitNotes_append_enters, exitNotes_map_onExit]

/-- Witness for C8 with two handlers and failure `7`. -/
theorem c8_span_failure_passthrough_witness :
    (Except.error 7 : Except Nat Nat) = Except.error 7 ∧
    ((spanRun [0, 1] (Except.error 7 : Except Nat Nat)).1 = Except.error 7 ∧
      exitNotes (spanRun [0, 1] (Except.error 7 : Except Nat Nat)).2 =
        [0, 1].map (fun h => (h, SpanOutcome.failure 7))) :=
  ⟨rfl, c8_span_failure_passthrough [0, 1] (Except.error 7) 7 rfl⟩

/-- C10: defining any subclass of the mixin resolves — creating and
registering when absent — a dispatcher named after the class's declaring
module, even when no method of the class is wrapped: the registry after the
hook contains the module name, and the registry effect is exactly that of
`get_dispatcher` on the module name. -/
theorem c10_subclass_registers_module_dispatcher (m : Manager) (cls : PyClass) :
    ((initSubclass m cls).1).containsName cls.module = true ∧
    (initSubclass m cls).1 = (getDispatcher m cls.module).2 :=
  ⟨containsName_getDispatcher_self m cls.module, rfl⟩
